import Mathlib

/-!
Verification of the command-resolution registry (`vibe/cli/commands.py`).

The Python module is embedded shallowly:

* Python `str` is Lean `String`; the string primitives the module uses
  (`str.strip`, `str.lower`, `str.split(maxsplit=1)`, `str.startswith`,
  `str.replace`, slicing) are modelled as executable functions on the
  character list of the string (`String.toList` / `List.asString`).
* Python `dict` is an insertion-ordered association list
  `List (String × α)`; `d[k] = v` replaces the value in place when the key
  is present and appends otherwise, `d.pop(k, None)` removes the entry,
  `d.get(k)` returns an `Option`.
* A raised exception is `Except.error ()`; code that cannot raise returns
  plain values.
* The custom-command directory is a snapshot: `none` when
  `COMMAND_DIR.path.is_dir()` is false, otherwise the list of `*.md` files
  in glob order, each carrying its stem and either its text
  (`content = some t`) or `none` when `read_text()` raises.
-/

/-! ## Python string primitives -/

/-- The whitespace characters stripped by Python `str.strip()` (ASCII fragment). -/
def isPySpace (c : Char) : Bool :=
  c = ' ' || c = '\t' || c = '\n' || c = '\r' || c = '\x0B' || c = '\x0C'

/-- Python `s.strip()`: remove leading and trailing whitespace. -/
def pyStrip (s : String) : String :=
  (((s.toList.dropWhile isPySpace).reverse.dropWhile isPySpace).reverse).asString

/-- Python `s.lower()` (ASCII fragment, which covers every string the module
compares): lowercase each character. -/
def pyLower (s : String) : String :=
  (s.toList.map Char.toLower).asString

/-- Python `s.startswith(c)` for a single-character needle. -/
def pyStartsWith (s : String) (c : Char) : Bool :=
  match s.toList with
  | [] => false
  | d :: _ => d = c

/-- Python `s[1:]`. -/
def pyDropOne (s : String) : String :=
  (s.toList.drop 1).asString

/-- Python `s.split(maxsplit=1)`: skip leading whitespace; if nothing is left
the result is empty; otherwise the first whitespace-free run is the token, the
run of whitespace after it is discarded, and the (possibly empty) remainder is
the second piece. -/
def pySplitOnce (s : String) : List String :=
  let l := s.toList.dropWhile isPySpace
  if l.isEmpty then []
  else
    let tok := l.takeWhile (fun c => !isPySpace c)
    let rest := (l.dropWhile (fun c => !isPySpace c)).dropWhile isPySpace
    if rest.isEmpty then [tok.asString] else [tok.asString, rest.asString]

/-! ## Python dict as an insertion-ordered association list -/

/-- `d.get(k)`. -/
def alGet? {α : Type} : List (String × α) → String → Option α
  | [], _ => none
  | (k, v) :: rest, key => if k = key then some v else alGet? rest key

/-- `d[k] = v`: overwrite in place when present, append otherwise. -/
def alInsert {α : Type} : List (String × α) → String → α → List (String × α)
  | [], k, v => [(k, v)]
  | (k', v') :: rest, k, v =>
    if k' = k then (k', v) :: rest else (k', v') :: alInsert rest k v

/-- `d.pop(k, None)`: remove the entry with key `k` when present. -/
def alPop {α : Type} (d : List (String × α)) (k : String) : List (String × α) :=
  d.filter (fun p => p.1 ≠ k)

/-- `d.values()` in insertion order. -/
def alValues {α : Type} (d : List (String × α)) : List α :=
  d.map Prod.snd

/-! ## Data model -/

/-- A built-in command descriptor (`Command` dataclass). The `aliases`
frozenset is carried as a list (the catalog below fixes one enumeration
order; set-like use never depends on it). -/
structure Command where
  aliases : List String
  description : String
  handler : String
  exits : Bool := false
deriving DecidableEq, Repr

/-- A custom command loaded from a `*.md` file (`CustomCommand` dataclass). -/
structure CustomCommand where
  name : String
  template : String
deriving DecidableEq, Repr

/-- `CustomCommand.aliases` property. -/
def CustomCommand.aliases (c : CustomCommand) : List String :=
  ["/" ++ c.name]

/-- `CustomCommand.description` property:
`first_line = template.split("\n")[0][:50]`, then
`"Custom: {first_line}..."` when `first_line` is non-empty (truthy), else
`"Custom command"`. -/
def CustomCommand.description (c : CustomCommand) : String :=
  let first_line := (c.template.toList.takeWhile (fun ch => ch ≠ '\n')).take 50
  if first_line.isEmpty then "Custom command"
  else "Custom: " ++ first_line.asString ++ "..."

/-- The literal token `$ARGUMENTS` as a character list. -/
def argToken : List Char := "$ARGUMENTS".toList

/-- Worker for `str.replace`: scan left to right; on a `$ARGUMENTS` match
emit the replacement and skip the matched characters, otherwise keep the
character. The fuel argument (initially the string length, an upper bound on
the number of steps, each of which consumes at least one character) makes the
recursion structural. -/
def replaceFrom (new : List Char) : Nat → List Char → List Char
  | _, [] => []
  | 0, s => s
  | fuel + 1, c :: rest =>
    if argToken.isPrefixOf (c :: rest) then
      new ++ replaceFrom new fuel (List.drop argToken.length (c :: rest))
    else
      c :: replaceFrom new fuel rest

/-- Python `s.replace("$ARGUMENTS", new)`: replace every non-overlapping
occurrence, scanning left to right, plain literal substitution. -/
def replaceArgToken (new : List Char) (s : List Char) : List Char :=
  replaceFrom new s.length s

/-- `CustomCommand.render`: `self.template.replace("$ARGUMENTS", arguments)`. -/
def CustomCommand.render (c : CustomCommand) (arguments : String) : String :=
  (replaceArgToken arguments.toList c.template.toList).asString

/-- Does `$ARGUMENTS` occur in the character list? -/
def hasArgToken : List Char → Bool
  | [] => false
  | c :: rest => argToken.isPrefixOf (c :: rest) || hasArgToken rest

/-- One `*.md` file of the custom-command directory snapshot: its stem and
either its text or `none` when `read_text()` raises. -/
structure CmdFile where
  stem : String
  content : Option String
deriving DecidableEq, Repr

/-- The fixed built-in catalog, exactly as enumerated in
`CommandRegistry.__init__`, in source (dict insertion) order. -/
def builtin_catalog : List (String × Command) :=
  [ ("help",
     { aliases := ["/help"], description := "Show help message",
       handler := "_show_help" }),
    ("config",
     { aliases := ["/config", "/theme", "/model"],
       description := "Edit config settings", handler := "_show_config" }),
    ("reload",
     { aliases := ["/reload"], description := "Reload configuration from disk",
       handler := "_reload_config" }),
    ("clear",
     { aliases := ["/clear"], description := "Clear conversation history",
       handler := "_clear_history" }),
    ("log",
     { aliases := ["/log"],
       description := "Show path to current interaction log file",
       handler := "_show_log_path" }),
    ("compact",
     { aliases := ["/compact"],
       description := "Compact conversation history by summarizing",
       handler := "_compact_history" }),
    ("exit",
     { aliases := ["/exit"], description := "Exit the application",
       handler := "_exit_app", exits := true }),
    ("terminal-setup",
     { aliases := ["/terminal-setup"],
       description := "Configure Shift+Enter for newlines",
       handler := "_setup_terminal" }),
    ("status",
     { aliases := ["/status"], description := "Display agent statistics",
       handler := "_show_status" }) ]

/-- The `commands` dict after the exclusion loop
(`for command in excluded_commands: self.commands.pop(command, None)`). -/
def build_commands (excluded_commands : List String) : List (String × Command) :=
  excluded_commands.foldl (fun d k => alPop d k) builtin_catalog

/-- Inner loop of alias-map construction:
`for alias in cmd.aliases: self._alias_map[alias] = cmd_name`. -/
def add_aliases : List (String × String) → String → List String → List (String × String)
  | m, _, [] => m
  | m, name, a :: as => add_aliases (alInsert m a name) name as

/-- Outer loop of alias-map construction over `self.commands.items()`. -/
def build_alias_map : List (String × String) → List (String × Command) → List (String × String)
  | m, [] => m
  | m, (name, cmd) :: rest => build_alias_map (add_aliases m name cmd.aliases) rest

/-- `CommandRegistry._load_custom_commands`, iterating the directory snapshot:
skip stems starting with `_`, skip stems whose `/name` is already an alias,
otherwise `read_text()` (propagating its exception) and register. -/
def load_custom (am : List (String × String)) :
    List CmdFile → List (String × CustomCommand) → Except Unit (List (String × CustomCommand))
  | [], acc => Except.ok acc
  | f :: rest, acc =>
    if pyStartsWith f.stem '_' then load_custom am rest acc
    else if (alGet? am ("/" ++ f.stem)).isSome then load_custom am rest acc
    else
      match f.content with
      | none => Except.error ()
      | some t => load_custom am rest (alInsert acc f.stem ⟨f.stem, t⟩)

/-- The registry state after `__init__`. -/
structure CommandRegistry where
  commands : List (String × Command)
  alias_map : List (String × String)
  custom_commands : List (String × CustomCommand)
deriving DecidableEq, Repr

/-- `CommandRegistry.__init__`: build the catalog, apply the exclusion list,
derive the alias map, then scan the custom-command directory snapshot
(`none` models `COMMAND_DIR.path.is_dir()` being false). An unhandled
exception from a file read aborts construction. -/
def mkRegistry (excluded_commands : List String) (command_dir : Option (List CmdFile)) :
    Except Unit CommandRegistry :=
  let commands := build_commands excluded_commands
  let alias_map := build_alias_map [] commands
  match command_dir with
  | none => Except.ok ⟨commands, alias_map, []⟩
  | some files =>
    match load_custom alias_map files [] with
    | Except.error e => Except.error e
    | Except.ok custom => Except.ok ⟨commands, alias_map, custom⟩

/-- `CommandRegistry.find_command`:
`cmd_name = self._alias_map.get(user_input.lower().strip())`;
`return self.commands.get(cmd_name) if cmd_name else None` (the empty string
is falsy). -/
def CommandRegistry.find_command (r : CommandRegistry) (user_input : String) :
    Option Command :=
  match alGet? r.alias_map (pyStrip (pyLower user_input)) with
  | none => none
  | some cmd_name => if cmd_name = "" then none else alGet? r.commands cmd_name

/-- The local `cmd_str` of `find_command_with_args`:
`parts = user_input.strip().split(maxsplit=1)`;
`cmd_str = parts[0].lower() if parts else ""`. -/
def cmd_str_of (user_input : String) : String :=
  match pySplitOnce (pyStrip user_input) with
  | [] => ""
  | t :: _ => pyLower t

/-- The local `args` of `find_command_with_args`:
`args = parts[1] if len(parts) > 1 else ""`. -/
def args_of (user_input : String) : String :=
  (pySplitOnce (pyStrip user_input)).getD 1 ""

/-- The custom-command fall-through of `find_command_with_args`: when
`cmd_str` starts with `/`, look up `cmd_str[1:]` in `custom_commands`. -/
def CommandRegistry.find_custom (r : CommandRegistry) (s args : String) :
    Option (Command ⊕ CustomCommand) × String :=
  if pyStartsWith s '/' then
    match alGet? r.custom_commands (pyDropOne s) with
    | some custom_cmd => (some (Sum.inr custom_cmd), args)
    | none => (none, "")
  else (none, "")

/-- `CommandRegistry.find_command_with_args`. The walrus test
`if cmd_name := self._alias_map.get(cmd_str)` falls through to the custom
branch when the hit is the falsy empty string; `self.commands[cmd_name]`
raises `KeyError` when absent — unreachable for registries built by
`mkRegistry`, modelled as the absent result. -/
def CommandRegistry.find_command_with_args (r : CommandRegistry) (user_input : String) :
    Option (Command ⊕ CustomCommand) × String :=
  match alGet? r.alias_map (cmd_str_of user_input) with
  | some cmd_name =>
    if cmd_name = "" then r.find_custom (cmd_str_of user_input) (args_of user_input)
    else
      match alGet? r.commands cmd_name with
      | some c => (some (Sum.inl c), args_of user_input)
      | none => (none, "")
  | none => r.find_custom (cmd_str_of user_input) (args_of user_input)

/-! ## Help text -/

/-- Characterwise code-point comparison, the order Python `sorted` uses on
strings. -/
def lexLe : List Char → List Char → Bool
  | [], _ => true
  | _ :: _, [] => false
  | a :: as, b :: bs =>
    if a.toNat < b.toNat then true
    else if b.toNat < a.toNat then false
    else lexLe as bs

/-- The order Python `sorted` uses on strings, as a relation. -/
def pyStrLe (a b : String) : Prop := lexLe a.toList b.toList = true

instance : DecidableRel pyStrLe :=
  fun a b => inferInstanceAs (Decidable (lexLe a.toList b.toList = true))

/-- `sorted(cmd.aliases)`. -/
def pySorted (l : List String) : List String :=
  List.insertionSort pyStrLe l

/-- Python `"sep".join(pieces)`. -/
def joinWith (sep : String) : List String → String
  | [] => ""
  | [x] => x
  | x :: xs => x ++ sep ++ joinWith sep xs

/-- The fixed preamble lines of `get_help_text`. -/
def help_preamble : List String :=
  [ "### Keyboard Shortcuts",
    "",
    "- `Enter` Submit message",
    "- `Ctrl+J` / `Shift+Enter` Insert newline",
    "- `Escape` Interrupt agent or close dialogs",
    "- `Ctrl+C` Quit (or clear input if text present)",
    "- `Ctrl+O` Toggle tool output view",
    "- `Ctrl+T` Toggle todo view",
    "- `Shift+Tab` Toggle auto-approve mode",
    "",
    "### Special Features",
    "",
    "- `!<command>` Execute bash command directly",
    "- `@path/to/file/` Autocompletes file paths",
    "",
    "### Commands",
    "" ]

/-- One built-in line of `get_help_text`:
`f"- {aliases}: {cmd.description}"` with the aliases sorted, backtick-quoted
and comma-joined. -/
def builtin_help_line (cmd : Command) : String :=
  "- " ++ joinWith ", " ((pySorted cmd.aliases).map (fun a => "`" ++ a ++ "`"))
    ++ ": " ++ cmd.description

/-- One custom-command line of `get_help_text`:
`f"- `/{cmd.name}`: {cmd.description}"`. -/
def custom_help_line (cmd : CustomCommand) : String :=
  "- `/" ++ cmd.name ++ "`: " ++ cmd.description

/-- `CommandRegistry.get_help_text`. -/
def CommandRegistry.get_help_text (r : CommandRegistry) : String :=
  let lines :=
    help_preamble
      ++ (alValues r.commands).map builtin_help_line
      ++ (if r.custom_commands.isEmpty then []
          else ["", "### Custom Commands", ""]
            ++ (alValues r.custom_commands).map custom_help_line)
  joinWith "\n" lines

/-! ## Association-list lemmas -/

theorem alGet?_alInsert {α : Type} (m : List (String × α)) (k : String) (v : α)
    (k' : String) :
    alGet? (alInsert m k v) k' = if k = k' then some v else alGet? m k' := by
  induction m with
  | nil => by_cases h : k = k' <;> simp [alInsert, alGet?, h]
  | cons p rest ih =>
    obtain ⟨pk, pv⟩ := p
    by_cases hpk : pk = k
    · subst hpk
      by_cases hk' : pk = k' <;> simp [alInsert, alGet?, hk']
    · by_cases hk' : pk = k'
      · subst hk'
        have hkk : ¬ k = pk := fun h => hpk h.symm
        simp [alInsert, alGet?, hpk, hkk]
      · simp [alInsert, alGet?, hpk, hk', ih]

theorem alGet?_eq_none {α : Type} (l : List (String × α)) (k : String)
    (h : ∀ p ∈ l, p.1 ≠ k) : alGet? l k = none := by
  induction l with
  | nil => rfl
  | cons p rest ih =>
    obtain ⟨pk, pv⟩ := p
    have hpk : pk ≠ k := h (pk, pv) (List.mem_cons_self _ _)
    simp only [alGet?, if_neg hpk]
    exact ih fun q hq => h q (List.mem_cons_of_mem _ hq)

theorem alGet?_eq_some_of_mem {α : Type} (l : List (String × α)) (k : String) (v : α)
    (hnd : (l.map Prod.fst).Nodup) (hmem : (k, v) ∈ l) : alGet? l k = some v := by
  induction l with
  | nil => cases hmem
  | cons p rest ih =>
    obtain ⟨pk, pv⟩ := p
    simp only [List.map_cons, List.nodup_cons] at hnd
    rcases List.mem_cons.mp hmem with heq | htail
    · cases heq
      simp [alGet?]
    · have hne : pk ≠ k := by
        intro he
        exact hnd.1 (he ▸ List.mem_map.mpr ⟨(k, v), htail, rfl⟩)
      simp only [alGet?, if_neg hne]
      exact ih hnd.2 htail

theorem mem_of_alGet?_eq_some {α : Type} {l : List (String × α)} {k : String} {v : α}
    (h : alGet? l k = some v) : (k, v) ∈ l := by
  induction l with
  | nil => cases h
  | cons p rest ih =>
    obtain ⟨pk, pv⟩ := p
    by_cases hpk : pk = k
    · subst hpk
      simp [alGet?] at h
      subst h
      exact List.mem_cons_self _ _
    · simp only [alGet?, if_neg hpk] at h
      exact List.mem_cons_of_mem _ (ih h)

theorem alGet?_isSome_of_isSome_alInsert {α : Type} (m : List (String × α))
    (k : String) (v : α) (k' : String) (h : (alGet? m k').isSome) :
    (alGet? (alInsert m k v) k').isSome := by
  rw [alGet?_alInsert]
  by_cases hk : k = k' <;> simp [hk, h]

/-! ## Alias-map construction lemmas -/

/-- All aliases of a command list, in order. -/
def aliasesOf (cmds : List (String × Command)) : List String :=
  cmds.flatMap (fun p => p.2.aliases)

theorem alGet?_add_aliases (m : List (String × String)) (name : String)
    (as : List String) (a : String) :
    alGet? (add_aliases m name as) a = if a ∈ as then some name else alGet? m a := by
  induction as generalizing m with
  | nil => simp [add_aliases]
  | cons b bs ih =>
    simp only [add_aliases, ih, alGet?_alInsert]
    by_cases hb : a ∈ bs
    · simp [hb, List.mem_cons]
    · by_cases hab : b = a
      · simp [hb, hab, List.mem_cons]
      · have hba : ¬ a = b := fun h => hab h.symm
        simp [hb, hab, hba, List.mem_cons]

theorem alGet?_build_alias_map_frame (cmds : List (String × Command))
    (m : List (String × String)) (a : String) (h : a ∉ aliasesOf cmds) :
    alGet? (build_alias_map m cmds) a = alGet? m a := by
  induction cmds generalizing m with
  | nil => rfl
  | cons p rest ih =>
    obtain ⟨name, cmd⟩ := p
    simp only [aliasesOf, List.flatMap_cons, List.mem_append] at h
    push_neg at h
    simp only [build_alias_map]
    rw [ih _ h.2, alGet?_add_aliases, if_neg h.1]

theorem alGet?_build_alias_map_mem (cmds : List (String × Command))
    (m : List (String × String)) (name : String) (cmd : Command) (a : String)
    (hnd : (aliasesOf cmds).Nodup) (hmem : (name, cmd) ∈ cmds) (ha : a ∈ cmd.aliases) :
    alGet? (build_alias_map m cmds) a = some name := by
  induction cmds generalizing m with
  | nil => cases hmem
  | cons p rest ih =>
    obtain ⟨name0, cmd0⟩ := p
    have hnd' := hnd
    simp only [aliasesOf, List.flatMap_cons, List.nodup_append] at hnd'
    rcases List.mem_cons.mp hmem with heq | htail
    · cases heq
      have hnotrest : a ∉ aliasesOf rest := fun hmem' => hnd'.2.2 ha hmem'
      simp only [build_alias_map]
      rw [alGet?_build_alias_map_frame _ _ _ hnotrest, alGet?_add_aliases, if_pos ha]
    · simp only [build_alias_map]
      exact ih _ hnd'.2.1 htail

theorem alGet?_add_aliases_some (m : List (String × String)) (name : String)
    (as : List String) (a v : String)
    (h : alGet? (add_aliases m name as) a = some v) :
    v = name ∨ alGet? m a = some v := by
  rw [alGet?_add_aliases] at h
  by_cases hmem : a ∈ as
  · rw [if_pos hmem] at h
    exact Or.inl (Option.some.injEq _ _ ▸ h.symm)
  · rw [if_neg hmem] at h
    exact Or.inr h

theorem alGet?_build_alias_map_some (cmds : List (String × Command))
    (m : List (String × String)) (a v : String)
    (h : alGet? (build_alias_map m cmds) a = some v) :
    v ∈ cmds.map Prod.fst ∨ alGet? m a = some v := by
  induction cmds generalizing m with
  | nil => exact Or.inr h
  | cons p rest ih =>
    obtain ⟨name0, cmd0⟩ := p
    simp only [build_alias_map] at h
    rcases ih _ h with hk | hm
    · exact Or.inl (List.mem_cons_of_mem _ hk)
    · rcases alGet?_add_aliases_some _ _ _ _ _ hm with hv | hv
      · exact Or.inl (hv ▸ List.mem_cons_self _ _)
      · exact Or.inr hv

/-! ## Exclusion-step lemmas -/

theorem foldl_alPop_eq_filter {α : Type} (ex : List String) (d : List (String × α)) :
    ex.foldl (fun d k => alPop d k) d = d.filter (fun p => decide (p.1 ∉ ex)) := by
  induction ex generalizing d with
  | nil => simp
  | cons k ks ih =>
    simp only [List.foldl_cons]
    rw [ih]
    simp only [alPop, List.filter_filter]
    apply List.filter_congr
    intro p _
    by_cases h1 : p.1 ∈ ks <;> by_cases h2 : p.1 = k <;> simp [h1, h2]

theorem build_commands_eq_filter (ex : List String) :
    build_commands ex = builtin_catalog.filter (fun p => decide (p.1 ∉ ex)) :=
  foldl_alPop_eq_filter ex builtin_catalog

theorem build_commands_sublist (ex : List String) :
    (build_commands ex).Sublist builtin_catalog := by
  rw [build_commands_eq_filter]
  exact List.filter_sublist _

theorem sublist_flatMap {α β : Type} (f : α → List β) {l₁ l₂ : List α}
    (h : l₁.Sublist l₂) : (l₁.flatMap f).Sublist (l₂.flatMap f) := by
  induction h with
  | slnil => simp
  | cons a h ih =>
    simp only [List.flatMap_cons]
    exact ih.trans (List.sublist_append_right _ _)
  | cons₂ a h ih =>
    simp only [List.flatMap_cons]
    exact ih.append_left _

/-! ## Concrete catalog facts -/

theorem catalog_keys_nodup : (builtin_catalog.map Prod.fst).Nodup := by decide

theorem catalog_aliases_nodup : (aliasesOf builtin_catalog).Nodup := by decide

theorem catalog_keys_no_empty : "" ∉ builtin_catalog.map Prod.fst := by decide

theorem catalog_aliases_normal :
    ∀ a ∈ aliasesOf builtin_catalog, pyStrip (pyLower a) = a := by decide

/-! ## Disjointness of alias blocks -/

theorem nodup_flatMap_same_block {α β : Type} (f : α → List β) (l : List α)
    (hnd : (l.flatMap f).Nodup) {p q : α} {a : β}
    (hp : p ∈ l) (hq : q ∈ l) (hap : a ∈ f p) (haq : a ∈ f q) : p = q := by
  induction l with
  | nil => cases hp
  | cons x xs ih =>
    simp only [List.flatMap_cons, List.nodup_append] at hnd
    rcases List.mem_cons.mp hp with hpx | hpxs
    · rcases List.mem_cons.mp hq with hqx | hqxs
      · exact hpx.trans hqx.symm
      · exact absurd (List.mem_flatMap.mpr ⟨q, hqxs, haq⟩) (fun hm => hnd.2.2 (hpx ▸ hap) hm)
    · rcases List.mem_cons.mp hq with hqx | hqxs
      · exact absurd (List.mem_flatMap.mpr ⟨p, hpxs, hap⟩) (fun hm => hnd.2.2 (hqx ▸ haq) hm)
      · exact ih hnd.2.1 hpxs hqxs

/-! ## Registry construction projections -/

theorem mk_commands {ex : List String} {dir : Option (List CmdFile)} {r : CommandRegistry}
    (h : mkRegistry ex dir = Except.ok r) : r.commands = build_commands ex := by
  unfold mkRegistry at h
  cases dir with
  | none => cases h; rfl
  | some files =>
    simp only at h
    cases hl : load_custom (build_alias_map [] (build_commands ex)) files [] with
    | error e => rw [hl] at h; cases h
    | ok custom => rw [hl] at h; cases h; rfl

theorem mk_alias_map {ex : List String} {dir : Option (List CmdFile)} {r : CommandRegistry}
    (h : mkRegistry ex dir = Except.ok r) :
    r.alias_map = build_alias_map [] (build_commands ex) := by
  unfold mkRegistry at h
  cases dir with
  | none => cases h; rfl
  | some files =>
    simp only at h
    cases hl : load_custom (build_alias_map [] (build_commands ex)) files [] with
    | error e => rw [hl] at h; cases h
    | ok custom => rw [hl] at h; cases h; rfl

theorem mk_custom_none {ex : List String} {r : CommandRegistry}
    (h : mkRegistry ex none = Except.ok r) : r.custom_commands = [] := by
  unfold mkRegistry at h
  cases h
  rfl

theorem mk_custom_some {ex : List String} {files : List CmdFile} {r : CommandRegistry}
    (h : mkRegistry ex (some files) = Except.ok r) :
    load_custom (build_alias_map [] (build_commands ex)) files [] =
      Except.ok r.custom_commands := by
  unfold mkRegistry at h
  simp only at h
  cases hl : load_custom (build_alias_map [] (build_commands ex)) files [] with
  | error e => rw [hl] at h; cases h
  | ok custom => rw [hl] at h; cases h; rfl

theorem commands_aliases_nodup {ex : List String} {dir : Option (List CmdFile)}
    {r : CommandRegistry} (h : mkRegistry ex dir = Except.ok r) :
    (aliasesOf r.commands).Nodup := by
  rw [mk_commands h]
  exact (sublist_flatMap _ (build_commands_sublist ex)).nodup catalog_aliases_nodup

theorem commands_keys_nodup {ex : List String} {dir : Option (List CmdFile)}
    {r : CommandRegistry} (h : mkRegistry ex dir = Except.ok r) :
    (r.commands.map Prod.fst).Nodup := by
  rw [mk_commands h]
  exact ((build_commands_sublist ex).map Prod.fst).nodup catalog_keys_nodup

theorem commands_keys_ne_empty {ex : List String} {dir : Option (List CmdFile)}
    {r : CommandRegistry} (h : mkRegistry ex dir = Except.ok r)
    {name : String} (hmem : name ∈ r.commands.map Prod.fst) : name ≠ "" := by
  intro he
  subst he
  apply catalog_keys_no_empty
  rw [mk_commands h] at hmem
  exact ((build_commands_sublist ex).map Prod.fst).mem hmem

/-! ## Custom-command loading lemmas -/

theorem load_custom_name_inv (am : List (String × String)) (files : List CmdFile)
    (acc custom : List (String × CustomCommand))
    (h : load_custom am files acc = Except.ok custom)
    (hacc : ∀ k v, alGet? acc k = some v → v.name = k) :
    ∀ k v, alGet? custom k = some v → v.name = k := by
  induction files generalizing acc with
  | nil =>
    simp only [load_custom] at h
    cases h
    exact hacc
  | cons f rest ih =>
    simp only [load_custom] at h
    by_cases h1 : pyStartsWith f.stem '_' = true
    · rw [if_pos h1] at h
      exact ih _ h hacc
    · rw [if_neg h1] at h
      by_cases h2 : (alGet? am ("/" ++ f.stem)).isSome = true
      · rw [if_pos h2] at h
        exact ih _ h hacc
      · rw [if_neg h2] at h
        cases hc : f.content with
        | none => rw [hc] at h; cases h
        | some t =>
          rw [hc] at h
          refine ih _ h ?_
          intro k v hv
          rw [alGet?_alInsert] at hv
          by_cases hk : f.stem = k
          · rw [if_pos hk] at hv
            cases hv
            exact hk
          · rw [if_neg hk] at hv
            exact hacc k v hv

theorem load_custom_no_conflict (am : List (String × String)) (files : List CmdFile)
    (acc custom : List (String × CustomCommand))
    (h : load_custom am files acc = Except.ok custom)
    (hacc : ∀ k, (alGet? am ("/" ++ k)).isSome → alGet? acc k = none) :
    ∀ k, (alGet? am ("/" ++ k)).isSome → alGet? custom k = none := by
  induction files generalizing acc with
  | nil =>
    simp only [load_custom] at h
    cases h
    exact hacc
  | cons f rest ih =>
    simp only [load_custom] at h
    by_cases h1 : pyStartsWith f.stem '_' = true
    · rw [if_pos h1] at h
      exact ih _ h hacc
    · rw [if_neg h1] at h
      by_cases h2 : (alGet? am ("/" ++ f.stem)).isSome = true
      · rw [if_pos h2] at h
        exact ih _ h hacc
      · rw [if_neg h2] at h
        cases hc : f.content with
        | none => rw [hc] at h; cases h
        | some t =>
          rw [hc] at h
          refine ih _ h ?_
          intro k hk
          rw [alGet?_alInsert]
          by_cases hs : f.stem = k
          · exact absurd (hs ▸ hk) h2
          · rw [if_neg hs]
            exact hacc k hk

theorem load_custom_mono (am : List (String × String)) (files : List CmdFile)
    (acc custom : List (String × CustomCommand)) (k : String)
    (h : load_custom am files acc = Except.ok custom)
    (hk : (alGet? acc k).isSome) : (alGet? custom k).isSome := by
  induction files generalizing acc with
  | nil =>
    simp only [load_custom] at h
    cases h
    exact hk
  | cons f rest ih =>
    simp only [load_custom] at h
    by_cases h1 : pyStartsWith f.stem '_' = true
    · rw [if_pos h1] at h
      exact ih _ h hk
    · rw [if_neg h1] at h
      by_cases h2 : (alGet? am ("/" ++ f.stem)).isSome = true
      · rw [if_pos h2] at h
        exact ih _ h hk
      · rw [if_neg h2] at h
        cases hc : f.content with
        | none => rw [hc] at h; cases h
        | some t =>
          rw [hc] at h
          exact ih _ h (alGet?_isSome_of_isSome_alInsert _ _ _ _ hk)

theorem load_custom_registers (am : List (String × String)) (files : List CmdFile)
    (acc custom : List (String × CustomCommand))
    (h : load_custom am files acc = Except.ok custom) :
    ∀ f ∈ files, pyStartsWith f.stem '_' = false →
      (alGet? am ("/" ++ f.stem)).isSome = false →
      (alGet? custom f.stem).isSome := by
  induction files generalizing acc with
  | nil => intro f hf; cases hf
  | cons g rest ih =>
    intro f hf h1 h2
    simp only [load_custom] at h
    rcases List.mem_cons.mp hf with hfg | hfr
    · subst hfg
      rw [if_neg (by rw [h1]; simp), if_neg (by rw [h2]; simp)] at h
      cases hc : f.content with
      | none => rw [hc] at h; cases h
      | some t =>
        rw [hc] at h
        refine load_custom_mono _ _ _ _ _ h ?_
        rw [alGet?_alInsert, if_pos rfl]
        rfl
    · by_cases hg1 : pyStartsWith g.stem '_' = true
      · rw [if_pos hg1] at h
        exact ih _ h f hfr h1 h2
      · rw [if_neg hg1] at h
        by_cases hg2 : (alGet? am ("/" ++ g.stem)).isSome = true
        · rw [if_pos hg2] at h
          exact ih _ h f hfr h1 h2
        · rw [if_neg hg2] at h
          cases hc : g.content with
          | none => rw [hc] at h; cases h
          | some t =>
            rw [hc] at h
            exact ih _ h f hfr h1 h2

theorem load_custom_error_iff (am : List (String × String)) (files : List CmdFile)
    (acc : List (String × CustomCommand)) :
    load_custom am files acc = Except.error () ↔
      ∃ f ∈ files, pyStartsWith f.stem '_' = false ∧
        (alGet? am ("/" ++ f.stem)).isSome = false ∧ f.content = none := by
  induction files generalizing acc with
  | nil => simp [load_custom]
  | cons f rest ih =>
    simp only [load_custom]
    by_cases h1 : pyStartsWith f.stem '_' = true
    · rw [if_pos h1]
      rw [ih]
      constructor
      · rintro ⟨g, hg, hgp⟩
        exact ⟨g, List.mem_cons_of_mem _ hg, hgp⟩
      · rintro ⟨g, hg, hgp⟩
        rcases List.mem_cons.mp hg with hge | hgr
        · subst hge
          rw [h1] at hgp
          cases hgp.1
        · exact ⟨g, hgr, hgp⟩
    · rw [if_neg h1]
      by_cases h2 : (alGet? am ("/" ++ f.stem)).isSome = true
      · rw [if_pos h2]
        rw [ih]
        constructor
        · rintro ⟨g, hg, hgp⟩
          exact ⟨g, List.mem_cons_of_mem _ hg, hgp⟩
        · rintro ⟨g, hg, hgp⟩
          rcases List.mem_cons.mp hg with hge | hgr
          · subst hge
            rw [h2] at hgp
            cases hgp.2.1
          · exact ⟨g, hgr, hgp⟩
      · rw [if_neg h2]
        cases hc : f.content with
        | none =>
          constructor
          · intro _
            exact ⟨f, List.mem_cons_self _ _,
              Bool.eq_false_iff.mpr h1, Bool.eq_false_iff.mpr h2, hc⟩
          · intro _
            rfl
        | some t =>
          rw [ih]
          constructor
          · rintro ⟨g, hg, hgp⟩
            exact ⟨g, List.mem_cons_of_mem _ hg, hgp⟩
          · rintro ⟨g, hg, hgp⟩
            rcases List.mem_cons.mp hg with hge | hgr
            · subst hge
              rw [hc] at hgp
              cases hgp.2.2
            · exact ⟨g, hgr, hgp⟩

/-! ## ASCII case lemmas -/

/-- Is the character an ASCII uppercase letter? -/
def is_ascii_upper (c : Char) : Bool :=
  decide (65 ≤ c.toNat) && decide (c.toNat ≤ 90)

/-- Does the string contain an ASCII uppercase letter? -/
def has_ascii_upper (s : String) : Bool :=
  s.toList.any is_ascii_upper

theorem char_toNat_ofNat {n : Nat} (h : n.isValidChar) : (Char.ofNat n).toNat = n := by
  simp only [Char.ofNat, dif_pos h, Char.ofNatAux, Char.toNat, UInt32.toNat,
    BitVec.toNat_ofNatLt]

theorem is_ascii_upper_toLower (c : Char) : is_ascii_upper (Char.toLower c) = false := by
  unfold Char.toLower
  by_cases h : c.toNat ≥ 65 ∧ c.toNat ≤ 90
  · rw [if_pos h]
    have hv : (c.toNat + 32).isValidChar := Or.inl (by omega)
    simp only [is_ascii_upper, char_toNat_ofNat hv]
    have : ¬ (c.toNat + 32 ≤ 90) := by omega
    simp [this]
  · rw [if_neg h]
    simp only [is_ascii_upper]
    rcases Nat.lt_or_ge c.toNat 65 with hlt | hge
    · simp [Nat.not_le.mpr hlt]
    · have : ¬ (c.toNat ≤ 90) := by omega
      simp [this]

theorem has_ascii_upper_pyLower (s : String) : has_ascii_upper (pyLower s) = false := by
  simp only [has_ascii_upper, pyLower, List.toList_asString]
  rw [List.any_eq_false]
  intro c hc
  rcases List.mem_map.mp hc with ⟨d, _, hd⟩
  rw [← hd]
  simp [is_ascii_upper_toLower d]

theorem has_ascii_upper_cmd_str (input : String) :
    has_ascii_upper (cmd_str_of input) = false := by
  unfold cmd_str_of
  cases pySplitOnce (pyStrip input) with
  | nil => rfl
  | cons t rest => exact has_ascii_upper_pyLower t

theorem has_ascii_upper_pyDropOne {s : String} (h : has_ascii_upper s = false) :
    has_ascii_upper (pyDropOne s) = false := by
  simp only [has_ascii_upper, pyDropOne, List.toList_asString] at *
  rw [List.any_eq_false] at *
  intro c hc
  exact h c (List.mem_of_mem_drop hc)

/-! ## Lexicographic order facts (Python string comparison) -/

theorem lexLe_total (as bs : List Char) : lexLe as bs = true ∨ lexLe bs as = true := by
  induction as generalizing bs with
  | nil => exact Or.inl rfl
  | cons a as ih =>
    cases bs with
    | nil => exact Or.inr rfl
    | cons b bs =>
      rcases Nat.lt_trichotomy a.toNat b.toNat with hlt | heq | hgt
      · left
        simp [lexLe, hlt]
      · rcases ih bs with h | h
        · left
          simp [lexLe, heq, h]
        · right
          simp [lexLe, heq.symm, h]
      · right
        simp [lexLe, hgt]

theorem lexLe_trans {as bs cs : List Char} (h1 : lexLe as bs = true)
    (h2 : lexLe bs cs = true) : lexLe as cs = true := by
  induction as generalizing bs cs with
  | nil => rfl
  | cons a as ih =>
    cases bs with
    | nil => cases h1
    | cons b bs =>
      cases cs with
      | nil => cases h2
      | cons c cs =>
        simp only [lexLe] at h1 h2 ⊢
        by_cases hab : a.toNat < b.toNat
        · by_cases hbc : b.toNat < c.toNat
          · simp [show a.toNat < c.toNat by omega]
          · rw [if_neg hbc] at h2
            by_cases hcb : c.toNat < b.toNat
            · rw [if_pos hcb] at h2
              cases h2
            · rw [if_neg hcb] at h2
              simp [show a.toNat < c.toNat by omega]
        · rw [if_neg hab] at h1
          by_cases hba : b.toNat < a.toNat
          · rw [if_pos hba] at h1
            cases h1
          · rw [if_neg hba] at h1
            by_cases hbc : b.toNat < c.toNat
            · simp [show a.toNat < c.toNat by omega]
            · rw [if_neg hbc] at h2
              by_cases hcb : c.toNat < b.toNat
              · rw [if_pos hcb] at h2
                cases h2
              · rw [if_neg hcb] at h2
                rw [if_neg (show ¬ a.toNat < c.toNat by omega),
                  if_neg (show ¬ c.toNat < a.toNat by omega)]
                exact ih h1 h2

instance : IsTotal String pyStrLe := ⟨fun a b => lexLe_total a.toList b.toList⟩

instance : IsTrans String pyStrLe := ⟨fun _ _ _ => lexLe_trans⟩

/-! ## Replacement lemmas -/

theorem replaceFrom_no_token (new : List Char) (fuel : Nat) (l : List Char)
    (h : hasArgToken l = false) : replaceFrom new fuel l = l := by
  induction fuel generalizing l with
  | zero => cases l <;> rfl
  | succ fuel ih =>
    cases l with
    | nil => rfl
    | cons c rest =>
      simp only [hasArgToken, Bool.or_eq_false_iff] at h
      simp only [replaceFrom, h.1, Bool.false_eq_true, if_false]
      rw [ih rest h.2]

theorem render_no_token (c : CustomCommand) (arguments : String)
    (h : hasArgToken c.template.toList = false) : c.render arguments = c.template := by
  unfold CustomCommand.render replaceArgToken
  rw [replaceFrom_no_token _ _ _ h]
  cases c.template
  rfl

/-! ## Spec-level help text -/

/-- Modelled from the spec (§4.5): the help text is the fixed preamble, then
one line per surviving built-in command in the catalog's insertion order
(its aliases alphabetically sorted, backtick-quoted and comma-joined,
followed by its description), then, exactly when custom commands exist, a
trailing Custom Commands section listing each custom command by `/name` with
its derived description, all newline-joined. -/
def helpTextSpec (r : CommandRegistry) : String :=
  joinWith "\n"
    (help_preamble
      ++ r.commands.map (fun p => builtin_help_line p.2)
      ++ (if r.custom_commands = [] then []
          else ["", "### Custom Commands", ""]
            ++ r.custom_commands.map (fun p => custom_help_line p.2)))

/-! ## Fixture registries for concrete checks -/

/-- The alias map derived from the full catalog. -/
def default_alias_map : List (String × String) :=
  [("/help", "help"), ("/config", "config"), ("/theme", "config"),
   ("/model", "config"), ("/reload", "reload"), ("/clear", "clear"),
   ("/log", "log"), ("/compact", "compact"), ("/exit", "exit"),
   ("/terminal-setup", "terminal-setup"), ("/status", "status")]

/-- The registry built with no exclusions and no command directory. -/
def default_registry : CommandRegistry :=
  ⟨builtin_catalog, default_alias_map, []⟩

theorem mk_default_registry : mkRegistry [] none = Except.ok default_registry := rfl

/-- The registry built with no exclusions from a directory holding only
`review.md` with template `Review $ARGUMENTS please`. -/
def review_registry : CommandRegistry :=
  ⟨builtin_catalog, default_alias_map,
   [("review", ⟨"review", "Review $ARGUMENTS please"⟩)]⟩

theorem mk_review_registry :
    mkRegistry [] (some [⟨"review", some "Review $ARGUMENTS please"⟩]) =
      Except.ok review_registry := rfl

/-- The registry built with no exclusions from a directory holding only
`Foo.md` (uppercase stem). -/
def upper_registry : CommandRegistry :=
  ⟨builtin_catalog, default_alias_map, [("Foo", ⟨"Foo", "Run $ARGUMENTS"⟩)]⟩

theorem mk_upper_registry :
    mkRegistry [] (some [⟨"Foo", some "Run $ARGUMENTS"⟩]) =
      Except.ok upper_registry := rfl

/-- The registry built excluding `exit` from a directory holding only
`exit.md`. -/
def exit_excluded_registry : CommandRegistry :=
  ⟨alPop builtin_catalog "exit",
   [("/help", "help"), ("/config", "config"), ("/theme", "config"),
    ("/model", "config"), ("/reload", "reload"), ("/clear", "clear"),
    ("/log", "log"), ("/compact", "compact"),
    ("/terminal-setup", "terminal-setup"), ("/status", "status")],
   [("exit", ⟨"exit", "goodbye"⟩)]⟩

theorem mk_exit_excluded_registry :
    mkRegistry ["exit"] (some [⟨"exit", some "goodbye"⟩]) =
      Except.ok exit_excluded_registry := rfl

/-! ## Claims -/

/-- C1: In any registry the constructor produces, every alias of every
built-in command that survives the exclusion step resolves through
`find_command` (which trims and lowercases the whole input) to exactly that
command, and any input whose normalized form is not an alias of a surviving
built-in yields `none`. -/
theorem find_command_resolves_exactly_the_surviving_aliases
    (excluded : List String) (dir : Option (List CmdFile)) (r : CommandRegistry)
    (h : mkRegistry excluded dir = Except.ok r) :
    (∀ p ∈ r.commands, ∀ a ∈ p.2.aliases, r.find_command a = some p.2) ∧
    (∀ s, (∀ p ∈ r.commands, pyStrip (pyLower s) ∉ p.2.aliases) →
        r.find_command s = none) := by
  have hsub : r.commands.Sublist builtin_catalog := by
    rw [mk_commands h]
    exact build_commands_sublist excluded
  have hand : (aliasesOf r.commands).Nodup := commands_aliases_nodup h
  have hknd : (r.commands.map Prod.fst).Nodup := commands_keys_nodup h
  constructor
  · rintro ⟨name, cmd⟩ hmem a ha
    have hacat : a ∈ aliasesOf builtin_catalog :=
      List.mem_flatMap.mpr ⟨(name, cmd), hsub.mem hmem, ha⟩
    have hnorm : pyStrip (pyLower a) = a := catalog_aliases_normal a hacat
    have halias : alGet? r.alias_map (pyStrip (pyLower a)) = some name := by
      rw [mk_alias_map h, ← mk_commands h, hnorm]
      exact alGet?_build_alias_map_mem r.commands [] name cmd a hand hmem ha
    have hne : name ≠ "" :=
      commands_keys_ne_empty h (List.mem_map.mpr ⟨(name, cmd), hmem, rfl⟩)
    unfold CommandRegistry.find_command
    rw [halias]
    show (if name = "" then none else alGet? r.commands name) = some cmd
    rw [if_neg hne]
    exact alGet?_eq_some_of_mem _ _ _ hknd hmem
  · intro s hs
    have hnot : pyStrip (pyLower s) ∉ aliasesOf r.commands := by
      intro hmem
      rcases List.mem_flatMap.mp hmem with ⟨p, hpc, hac⟩
      exact hs p hpc hac
    have halias : alGet? r.alias_map (pyStrip (pyLower s)) = none := by
      rw [mk_alias_map h, ← mk_commands h,
        alGet?_build_alias_map_frame _ _ _ hnot]
      rfl
    unfold CommandRegistry.find_command
    rw [halias]

/-- The `config` catalog entry, for concrete checks. -/
def config_command : Command :=
  { aliases := ["/config", "/theme", "/model"],
    description := "Edit config settings", handler := "_show_config" }

/-- The `help` catalog entry, for concrete checks. -/
def help_command : Command :=
  { aliases := ["/help"], description := "Show help message",
    handler := "_show_help" }

/-- C1 witness: the hypotheses hold for the registry built with no exclusions
and no command directory; `/theme` resolves to the `config` command and a
non-alias input resolves to `none`. -/
theorem find_command_resolves_exactly_the_surviving_aliases_witness :
    mkRegistry [] none = Except.ok default_registry ∧
    default_registry.find_command " /THEME " = some config_command ∧
    default_registry.find_command "/unknown" = none := by
  refine ⟨rfl, ?_, ?_⟩
  · have h1 := (find_command_resolves_exactly_the_surviving_aliases [] none
      default_registry rfl).1 ("config", config_command) (by decide) "/theme" (by decide)
    rw [show default_registry.find_command " /THEME " =
      default_registry.find_command "/theme" from rfl]
    exact h1
  · exact (find_command_resolves_exactly_the_surviving_aliases [] none
      default_registry rfl).2 "/unknown" (by decide)

/-- C2: `find_command_with_args` trims the input, splits on the first run of
whitespace into the token (`cmd_str_of`, lowercased for matching only) and
the argument string (`args_of`, empty when no split occurs); when the token
hits the alias map the matching built-in is returned together with the
argument string. Concretely, `/config dark` yields the `config` command and
`"dark"`, and only the token is lowercased. -/
theorem find_command_with_args_token_and_args
    (excluded : List String) (dir : Option (List CmdFile)) (r : CommandRegistry)
    (h : mkRegistry excluded dir = Except.ok r) :
    (∀ input name cmd, alGet? r.alias_map (cmd_str_of input) = some name →
        alGet? r.commands name = some cmd →
        r.find_command_with_args input = (some (Sum.inl cmd), args_of input)) ∧
    cmd_str_of "/config dark" = "/config" ∧
    args_of "/config dark" = "dark" ∧
    (mkRegistry [] none).map (fun r0 => r0.find_command_with_args "/config dark") =
      Except.ok (some (Sum.inl config_command), "dark") ∧
    (mkRegistry [] none).map (fun r0 => r0.find_command_with_args "/CONFIG Dark Mode") =
      Except.ok (some (Sum.inl config_command), "Dark Mode") := by
  refine ⟨?_, rfl, rfl, rfl, rfl⟩
  intro input name cmd hget hcmd
  have hne : name ≠ "" :=
    commands_keys_ne_empty h
      (List.mem_map.mpr ⟨(name, cmd), mem_of_alGet?_eq_some hcmd, rfl⟩)
  unfold CommandRegistry.find_command_with_args
  rw [hget]
  show (if name = "" then _ else _) = _
  rw [if_neg hne, hcmd]

/-- C2 witness: the hypotheses hold at `/config dark` on the default
registry. -/
theorem find_command_with_args_token_and_args_witness :
    mkRegistry [] none = Except.ok default_registry ∧
    alGet? default_registry.alias_map (cmd_str_of "/config dark") = some "config" ∧
    alGet? default_registry.commands "config" = some config_command ∧
    default_registry.find_command_with_args "/config dark" =
      (some (Sum.inl config_command), args_of "/config dark") :=
  ⟨rfl, by decide, by decide,
    (find_command_with_args_token_and_args [] none default_registry rfl).1
      "/config dark" "config" config_command (by decide) (by decide)⟩

/-- C6: an input whose (lowercased) command token matches neither a built-in
alias nor, after stripping a leading `/`, a registered custom command
resolves to the absence marker paired with the empty string — even when the
input carried argument text. The resolution functions are total Lean
functions, so no exception is modelled for them. -/
theorem find_command_with_args_unrecognized_input
    (r : CommandRegistry) :
    (∀ input, alGet? r.alias_map (cmd_str_of input) = none →
        (pyStartsWith (cmd_str_of input) '/' = true →
          alGet? r.custom_commands (pyDropOne (cmd_str_of input)) = none) →
        r.find_command_with_args input = (none, "")) ∧
    (mkRegistry [] none).map (fun r0 => r0.find_command_with_args "/unknown-thing foo") =
      Except.ok (none, "") := by
  refine ⟨?_, rfl⟩
  intro input hget hcustom
  unfold CommandRegistry.find_command_with_args
  rw [hget]
  show r.find_custom (cmd_str_of input) (args_of input) = (none, "")
  unfold CommandRegistry.find_custom
  by_cases hsw : pyStartsWith (cmd_str_of input) '/' = true
  · rw [if_pos hsw, hcustom hsw]
  · rw [if_neg hsw]

/-- C6 witness: the hypotheses hold at `/unknown-thing foo` on the default
registry. -/
theorem find_command_with_args_unrecognized_input_witness :
    alGet? default_registry.alias_map (cmd_str_of "/unknown-thing foo") = none ∧
    alGet? default_registry.custom_commands
      (pyDropOne (cmd_str_of "/unknown-thing foo")) = none ∧
    default_registry.find_command_with_args "/unknown-thing foo" = (none, "") :=
  ⟨by decide, by decide,
    (find_command_with_args_unrecognized_input default_registry).1
      "/unknown-thing foo" (by decide) (fun _ => by decide)⟩

/-- C3 counterexample: the scan has no per-file error handling, so one
unreadable file aborts construction entirely — with a snapshot holding an
unreadable `a.md` followed by a readable `b.md`, construction fails instead
of completing with `b` registered. -/
theorem unreadable_file_aborts_construction :
    mkRegistry [] (some [⟨"a", none⟩, ⟨"b", some "hi"⟩]) = Except.error () := rfl

/-- C3 amended: a failed read of a non-skipped custom-command file is not
contained — construction fails exactly when the snapshot holds some file
that is neither underscore-skipped nor alias-shadowed and whose read fails;
otherwise construction completes. -/
theorem construction_fails_iff_unreadable_nonskipped_file
    (excluded : List String) (files : List CmdFile) :
    mkRegistry excluded (some files) = Except.error () ↔
      ∃ f ∈ files, pyStartsWith f.stem '_' = false ∧
        (alGet? (build_alias_map [] (build_commands excluded))
          ("/" ++ f.stem)).isSome = false ∧
        f.content = none := by
  have key := load_custom_error_iff (build_alias_map [] (build_commands excluded)) files []
  have hshape : mkRegistry excluded (some files) =
      (match load_custom (build_alias_map [] (build_commands excluded)) files [] with
       | Except.error e => Except.error e
       | Except.ok custom =>
         Except.ok ⟨build_commands excluded,
           build_alias_map [] (build_commands excluded), custom⟩) := rfl
  rw [hshape]
  cases hl : load_custom (build_alias_map [] (build_commands excluded)) files [] with
  | error e =>
    cases e
    exact iff_of_true rfl (key.mp hl)
  | ok custom =>
    constructor
    · intro hcontra
      exact Except.noConfusion hcontra
    · intro hex
      rw [key.mpr hex] at hl
      cases hl

/-- C4: a custom-command file whose stem `n` has `/n` already in the alias
map is never registered in `custom_commands`, and `/help` with a `help.md`
file present still resolves to the built-in `help` command. -/
theorem builtin_alias_shadows_custom_file
    (excluded : List String) (files : List CmdFile) (r : CommandRegistry)
    (h : mkRegistry excluded (some files) = Except.ok r) :
    (∀ n, (alGet? r.alias_map ("/" ++ n)).isSome = true →
        alGet? r.custom_commands n = none) ∧
    (mkRegistry [] (some [⟨"help", some "my help override"⟩])).map
        (fun r0 => (alGet? r0.custom_commands "help",
          r0.find_command_with_args "/help")) =
      Except.ok (none, (some (Sum.inl help_command), "")) := by
  refine ⟨?_, rfl⟩
  intro n hn
  exact load_custom_no_conflict _ _ _ _ (mk_custom_some h) (fun _ _ => rfl) n
    ((mk_alias_map h) ▸ hn)

/-- C4 witness: the hypotheses hold for the registry built from a snapshot
holding only `help.md`; the conflicting file is not registered. -/
theorem builtin_alias_shadows_custom_file_witness :
    mkRegistry [] (some [⟨"help", some "my help override"⟩]) =
      Except.ok default_registry ∧
    (alGet? default_registry.alias_map ("/" ++ "help")).isSome = true ∧
    alGet? default_registry.custom_commands "help" = none :=
  ⟨rfl, by decide,
    (builtin_alias_shadows_custom_file [] [⟨"help", some "my help override"⟩]
      default_registry rfl).1 "help" (by decide)⟩

/-- The `exit` catalog entry, for concrete checks. -/
def exit_command : Command :=
  { aliases := ["/exit"], description := "Exit the application",
    handler := "_exit_app", exits := true }

/-- C5: an excluded internal key is removed from `commands` before alias
derivation, so none of its catalog aliases is in the alias map; excluding
`exit` makes `find_command "/exit"` absent; an unknown excluded key is a
no-op; and the freed alias is reusable by a custom command. -/
theorem excluded_key_removes_command_and_frees_aliases
    (excluded : List String) (dir : Option (List CmdFile)) (r : CommandRegistry)
    (h : mkRegistry excluded dir = Except.ok r) :
    (∀ k ∈ excluded, alGet? r.commands k = none ∧
        ∀ cmd, (k, cmd) ∈ builtin_catalog → ∀ a ∈ cmd.aliases,
          alGet? r.alias_map a = none) ∧
    (mkRegistry ["exit"] none).map (fun r0 => r0.find_command "/exit") =
      Except.ok none ∧
    (∀ k, k ∉ builtin_catalog.map Prod.fst →
        ∀ ex2 dir2, mkRegistry (k :: ex2) dir2 = mkRegistry ex2 dir2) ∧
    (mkRegistry ["exit"] (some [⟨"exit", some "goodbye"⟩])).map
        (fun r0 => (alGet? r0.custom_commands "exit",
          r0.find_command_with_args "/exit")) =
      Except.ok (some ⟨"exit", "goodbye"⟩, (some (Sum.inr ⟨"exit", "goodbye"⟩), "")) := by
  have hsub : r.commands.Sublist builtin_catalog := by
    rw [mk_commands h]
    exact build_commands_sublist excluded
  have hc : r.commands = builtin_catalog.filter (fun p => decide (p.1 ∉ excluded)) := by
    rw [mk_commands h, build_commands_eq_filter]
  refine ⟨?_, rfl, ?_, rfl⟩
  · intro k hk
    constructor
    · apply alGet?_eq_none
      intro p hp he
      have hmemf := List.of_mem_filter (hc ▸ hp)
      rw [decide_eq_true_iff] at hmemf
      exact hmemf (he ▸ hk)
    · intro cmd hcat a ha
      have hnot : a ∉ aliasesOf r.commands := by
        intro hmem
        rcases List.mem_flatMap.mp hmem with ⟨q, hqmem, haq⟩
        have hq : q = (k, cmd) :=
          nodup_flatMap_same_block _ builtin_catalog catalog_aliases_nodup
            (hsub.mem hqmem) hcat haq ha
        subst hq
        have hmemf := List.of_mem_filter (hc ▸ hqmem)
        rw [decide_eq_true_iff] at hmemf
        exact hmemf hk
      rw [mk_alias_map h, ← mk_commands h,
        alGet?_build_alias_map_frame _ _ _ hnot]
      rfl
  · intro k hk ex2 dir2
    have hpop : alPop builtin_catalog k = builtin_catalog := by
      apply List.filter_eq_self.mpr
      intro p hp
      rw [decide_eq_true_iff]
      intro he
      exact hk (he ▸ List.mem_map.mpr ⟨p, hp, rfl⟩)
    have hbc : build_commands (k :: ex2) = build_commands ex2 := by
      unfold build_commands
      simp only [List.foldl_cons]
      rw [hpop]
    unfold mkRegistry
    rw [hbc]

/-- C5 witness: the hypotheses hold when excluding `exit`; the `exit` entry
and the `/exit` alias are gone from the registry. -/
theorem excluded_key_removes_command_and_frees_aliases_witness :
    mkRegistry ["exit"] (some [⟨"exit", some "goodbye"⟩]) =
      Except.ok exit_excluded_registry ∧
    "exit" ∈ ["exit"] ∧
    ("exit", exit_command) ∈ builtin_catalog ∧
    alGet? exit_excluded_registry.commands "exit" = none ∧
    alGet? exit_excluded_registry.alias_map "/exit" = none := by
  refine ⟨rfl, by decide, by decide, ?_, ?_⟩
  · exact ((excluded_key_removes_command_and_frees_aliases ["exit"]
      (some [⟨"exit", some "goodbye"⟩]) exit_excluded_registry rfl).1
        "exit" (by decide)).1
  · exact ((excluded_key_removes_command_and_frees_aliases ["exit"]
      (some [⟨"exit", some "goodbye"⟩]) exit_excluded_registry rfl).1
        "exit" (by decide)).2 exit_command (by decide) "/exit" (by decide)

/-- C7: `render` replaces every occurrence of the literal `$ARGUMENTS` token
by the argument string by plain left-to-right literal substitution — a
template without the token is returned unchanged, several occurrences are
all replaced, and regex metacharacters in the argument are inserted
verbatim with no escaping. -/
theorem render_substitutes_arguments_token :
    (∀ name template arguments, hasArgToken template.toList = false →
        CustomCommand.render ⟨name, template⟩ arguments = template) ∧
    CustomCommand.render ⟨"review", "Review $ARGUMENTS please"⟩ "PR#1" =
      "Review PR#1 please" ∧
    CustomCommand.render ⟨"x", "A $ARGUMENTS B $ARGUMENTS."⟩ "zz" = "A zz B zz." ∧
    CustomCommand.render ⟨"x", "token: $ARGUMENTS"⟩ ".*$[\\1](x)" =
      "token: .*$[\\1](x)" := by
  refine ⟨?_, rfl, rfl, rfl⟩
  intro name template arguments h
  exact render_no_token ⟨name, template⟩ arguments h

/-- C7 witness: the no-token hypothesis holds at a concrete template, which
`render` returns unchanged. -/
theorem render_substitutes_arguments_token_witness :
    hasArgToken "no token here".toList = false ∧
    CustomCommand.render ⟨"n", "no token here"⟩ "ARGS" = "no token here" :=
  ⟨by decide,
    (render_substitutes_arguments_token).1 "n" "no token here" "ARGS" (by decide)⟩

/-- C9: construction is deterministic — two registries built from the same
exclusion list and the same directory snapshot have identical alias maps and
give identical results from both resolution entry points on every input. -/
theorem construction_and_resolution_deterministic
    (excluded : List String) (dir : Option (List CmdFile)) (r₁ r₂ : CommandRegistry)
    (h₁ : mkRegistry excluded dir = Except.ok r₁)
    (h₂ : mkRegistry excluded dir = Except.ok r₂) :
    r₁.alias_map = r₂.alias_map ∧
    (∀ input, r₁.find_command input = r₂.find_command input ∧
      r₁.find_command_with_args input = r₂.find_command_with_args input) := by
  have heq : r₁ = r₂ := by
    rw [h₁] at h₂
    injection h₂
  subst heq
  exact ⟨rfl, fun _ => ⟨rfl, rfl⟩⟩

/-- C9 witness: the hypotheses hold for two constructions with no exclusions
and no directory. -/
theorem construction_and_resolution_deterministic_witness :
    mkRegistry [] none = Except.ok default_registry ∧
    default_registry.alias_map = default_registry.alias_map ∧
    default_registry.find_command_with_args "/help x" =
      default_registry.find_command_with_args "/help x" :=
  ⟨rfl, (construction_and_resolution_deterministic [] none
      default_registry default_registry rfl rfl).1,
    ((construction_and_resolution_deterministic [] none
      default_registry default_registry rfl rfl).2 "/help x").2⟩

/-- C10: a custom-command file with an uppercase letter in its stem is
registered under its original-case name, but the command token is lowercased
before the custom lookup while the table keeps the original-case key, so no
input ever resolves to such a command through `find_command_with_args`. -/
theorem uppercase_custom_command_is_unreachable
    (excluded : List String) (files : List CmdFile) (r : CommandRegistry)
    (h : mkRegistry excluded (some files) = Except.ok r) :
    (∀ f ∈ files, pyStartsWith f.stem '_' = false →
        (alGet? r.alias_map ("/" ++ f.stem)).isSome = false →
        ∃ cc, alGet? r.custom_commands f.stem = some cc ∧ cc.name = f.stem) ∧
    (∀ n cc, alGet? r.custom_commands n = some cc → has_ascii_upper n = true →
        ∀ input, (r.find_command_with_args input).1 ≠ some (Sum.inr cc)) := by
  have hload := mk_custom_some h
  have hname : ∀ k v, alGet? r.custom_commands k = some v → v.name = k :=
    load_custom_name_inv _ _ _ _ hload (fun k v hv => by cases hv)
  constructor
  · intro f hf h1 h2
    have hreg := load_custom_registers _ _ _ _ hload f hf h1 ((mk_alias_map h) ▸ h2)
    rcases Option.isSome_iff_exists.mp hreg with ⟨cc, hcc⟩
    exact ⟨cc, hcc, hname _ _ hcc⟩
  · intro n cc hcc hup input
    have hccname : cc.name = n := hname _ _ hcc
    have hlow : has_ascii_upper (cmd_str_of input) = false := has_ascii_upper_cmd_str input
    have hcustom : (r.find_custom (cmd_str_of input) (args_of input)).1 ≠
        some (Sum.inr cc) := by
      unfold CommandRegistry.find_custom
      by_cases hsw : pyStartsWith (cmd_str_of input) '/' = true
      · rw [if_pos hsw]
        cases hcg : alGet? r.custom_commands (pyDropOne (cmd_str_of input)) with
        | none => simp
        | some cc2 =>
          show some (Sum.inr cc2) ≠ some (Sum.inr cc)
          intro heq
          simp only [Option.some.injEq, Sum.inr.injEq] at heq
          subst heq
          have hn : n = pyDropOne (cmd_str_of input) := by
            rw [← hccname, hname _ _ hcg]
          rw [hn, has_ascii_upper_pyDropOne hlow] at hup
          cases hup
      · rw [if_neg hsw]
        simp
    unfold CommandRegistry.find_command_with_args
    cases hget : alGet? r.alias_map (cmd_str_of input) with
    | none => exact hcustom
    | some cmd_name =>
      show (if cmd_name = "" then r.find_custom (cmd_str_of input) (args_of input)
          else match alGet? r.commands cmd_name with
            | some c => (some (Sum.inl c), args_of input)
            | none => (none, "")).1 ≠ some (Sum.inr cc)
      by_cases hne : cmd_name = ""
      · rw [if_pos hne]
        exact hcustom
      · rw [if_neg hne]
        cases hcmd : alGet? r.commands cmd_name with
        | none => simp
        | some c => simp

/-- C10 witness: the hypotheses hold for a snapshot holding only `Foo.md`:
the command is registered under `Foo`, yet `/Foo` does not resolve to it. -/
theorem uppercase_custom_command_is_unreachable_witness :
    mkRegistry [] (some [⟨"Foo", some "Run $ARGUMENTS"⟩]) =
      Except.ok upper_registry ∧
    alGet? upper_registry.custom_commands "Foo" = some ⟨"Foo", "Run $ARGUMENTS"⟩ ∧
    has_ascii_upper "Foo" = true ∧
    (upper_registry.find_command_with_args "/Foo").1 ≠
      some (Sum.inr ⟨"Foo", "Run $ARGUMENTS"⟩) :=
  ⟨rfl, by decide, by decide,
    (uppercase_custom_command_is_unreachable [] [⟨"Foo", some "Run $ARGUMENTS"⟩]
      upper_registry rfl).2 "Foo" ⟨"Foo", "Run $ARGUMENTS"⟩ (by decide) (by decide)
      "/Foo"⟩

/-- C8: `get_help_text` equals the spec-level rendering — the fixed preamble,
then exactly one line per surviving built-in command in the catalog's
insertion order (all its aliases alphabetically sorted, backtick-quoted and
comma-joined, followed by its description), then a trailing Custom Commands
section listing each custom command by `/name` if and only if the custom
table is non-empty; and every printed alias list is a sorted permutation of
the command's aliases. -/
theorem get_help_text_matches_spec
    (excluded : List String) (dir : Option (List CmdFile)) (r : CommandRegistry)
    (h : mkRegistry excluded dir = Except.ok r) :
    r.get_help_text = helpTextSpec r ∧
    (∀ p ∈ r.commands, List.Sorted pyStrLe (pySorted p.2.aliases) ∧
      (pySorted p.2.aliases).Perm p.2.aliases) := by
  constructor
  · unfold CommandRegistry.get_help_text helpTextSpec alValues
    cases hcc : r.custom_commands with
    | nil =>
      simp
      rfl
    | cons c cs =>
      simp
      rfl
  · intro p _
    exact ⟨List.sorted_insertionSort pyStrLe _, List.perm_insertionSort pyStrLe _⟩

set_option maxRecDepth 10000 in
/-- C8 witness: the hypotheses hold for the registry built from a snapshot
with one custom command; the rendered text is the expected literal, with the
`config` aliases printed in sorted order and a Custom Commands section
present. -/
theorem get_help_text_matches_spec_witness :
    mkRegistry [] (some [⟨"review", some "Review $ARGUMENTS please"⟩]) =
      Except.ok review_registry ∧
    review_registry.get_help_text = helpTextSpec review_registry ∧
    ("config", config_command) ∈ review_registry.commands ∧
    List.Sorted pyStrLe (pySorted config_command.aliases) ∧
    pySorted config_command.aliases = ["/config", "/model", "/theme"] ∧
    review_registry.get_help_text =
      "### Keyboard Shortcuts\n\n- `Enter` Submit message\n- `Ctrl+J` / `Shift+Enter` Insert newline\n- `Escape` Interrupt agent or close dialogs\n- `Ctrl+C` Quit (or clear input if text present)\n- `Ctrl+O` Toggle tool output view\n- `Ctrl+T` Toggle todo view\n- `Shift+Tab` Toggle auto-approve mode\n\n### Special Features\n\n- `!<command>` Execute bash command directly\n- `@path/to/file/` Autocompletes file paths\n\n### Commands\n\n- `/help`: Show help message\n- `/config`, `/model`, `/theme`: Edit config settings\n- `/reload`: Reload configuration from disk\n- `/clear`: Clear conversation history\n- `/log`: Show path to current interaction log file\n- `/compact`: Compact conversation history by summarizing\n- `/exit`: Exit the application\n- `/terminal-setup`: Configure Shift+Enter for newlines\n- `/status`: Display agent statistics\n\n### Custom Commands\n\n- `/review`: Custom: Review $ARGUMENTS please..." := by
  refine ⟨rfl, ?_, by decide, ?_, by decide, by decide⟩
  · exact (get_help_text_matches_spec [] (some [⟨"review", some "Review $ARGUMENTS please"⟩])
      review_registry rfl).1
  · exact ((get_help_text_matches_spec [] (some [⟨"review", some "Review $ARGUMENTS please"⟩])
      review_registry rfl).2 ("config", config_command) (by decide)).1
